import Mathlib

/-!
A shallow embedding of the search-and-rank subsystem of the gallery
application (src/lib/actions/image.actions.ts): the query sanitizer,
the synonym/alias expander, the filter builder, the relevance scorer,
the paginator and the listing orchestrator (getAllImages), together
with theorems settling the specification claims about them.

Modelling conventions:
* JavaScript strings are Lean Strings; character classes (word chars,
  the whitespace class of JS regexes) are modelled on ASCII/Unicode
  code points exactly as the JS spec defines them where it matters.
* A JS RegExp built by interpolating the sanitized query is modelled
  over the character repertoire the sanitizer can emit (word chars,
  space, hyphen, underscore, period): the only metacharacter among
  those is the period, which matches any non-line-terminator; all
  other characters match literally, case-insensitively under the i
  flag.  String.prototype.includes is literal containment.
* MongoDB regex conditions on a missing field do not match.
* Numbers (timestamps, scores, counts) are Nat.
-/

namespace Artify

/-- JS regex word character: [A-Za-z0-9_]. -/
def isWordChar (c : Char) : Bool :=
  (('A' ≤ c && c ≤ 'Z') || ('a' ≤ c && c ≤ 'z') || ('0' ≤ c && c ≤ '9') || c = '_')

/-- Word-char test on an optional character; out-of-range positions count as non-word. -/
def isWopt : Option Char → Bool
  | none => false
  | some c => isWordChar c

/-- A word boundary lies between two positions iff exactly one side is a word char. -/
def bdy (a b : Option Char) : Bool := isWopt a != isWopt b

/-- JS line terminators (not matched by the regex dot). -/
def isLineTerm (c : Char) : Bool :=
  c = '\n' || c = '\r' || c.val = 0x2028 || c.val = 0x2029

/-- One pattern character of an interpolated-query regex with the i flag:
the period matches any non-line-terminator, anything else matches up to ASCII case. -/
def charMatch (p c : Char) : Bool :=
  if p = '.' then !(isLineTerm c) else p.toLower == c.toLower

/-- Case-insensitive literal character comparison (no metacharacters). -/
def charCI (p c : Char) : Bool := p.toLower == c.toLower

/-- Case-sensitive literal character comparison. -/
def charCS (p c : Char) : Bool := p == c

/-- Does the pattern match a prefix of the string, character by character
under the matcher m? -/
def matchAtBy (m : Char → Char → Bool) : List Char → List Char → Bool
  | [], _ => true
  | _ :: _, [] => false
  | pc :: p', sc :: s' => m pc sc && matchAtBy m p' s'

/-- Does the pattern match at some position of the string under the matcher m? -/
def occursBy (m : Char → Char → Bool) (p : List Char) : List Char → Bool
  | [] => matchAtBy m p []
  | c :: s' => matchAtBy m p (c :: s') || occursBy m p s'

/-- Match the pattern as a prefix of the string and check the closing word
boundary after the matched text; the parameter carries the last character
consumed so far (for the boundary when the pattern is empty). -/
def prefixBdBy (m : Char → Char → Bool) : List Char → List Char → Option Char → Bool
  | [], s, last => bdy last s.head?
  | _ :: _, [], _ => false
  | pc :: p', sc :: s', _ => m pc sc && prefixBdBy m p' s' (some sc)

/-- Scan the string for a position where a word boundary holds, the pattern
matches, and a word boundary follows the match: the semantics of the JS
regex \b pattern \b.  The parameter carries the previous character. -/
def wordScanBy (m : Char → Char → Bool) (q : List Char) : List Char → Option Char → Bool
  | [], prev => bdy prev none && prefixBdBy m q [] prev
  | c :: s', prev =>
      (bdy prev (some c) && prefixBdBy m q (c :: s') prev) || wordScanBy m q s' (some c)

/-- Lowercase a string (ASCII, as Char.toLower). -/
def lowerStr (s : String) : String := ⟨s.data.map Char.toLower⟩

/-- JS String.prototype.includes: literal, case-sensitive containment of p in s. -/
def strIncludes (s p : String) : Bool := occursBy charCS p.data s.data

/-- Containment of the interpolated-query regex (i flag, dot wildcard) in s:
models new RegExp(q, i).test(s) and the MongoDB regex condition. -/
def regexContains (q s : String) : Bool := occursBy charMatch q.data s.data

/-- Whole-word containment of the interpolated-query regex in s:
models new RegExp(bounded q, i).test(s) with word boundaries on both sides. -/
def wordRegexMatch (q s : String) : Bool := wordScanBy charMatch q.data s.data none

/-- Case-insensitive literal containment (the spec reading of substring match). -/
def litContainsCI (q s : String) : Bool := occursBy charCI q.data s.data

/-- Case-insensitive literal whole-word match (the spec reading of word-boundary match). -/
def wordLitMatch (q s : String) : Bool := wordScanBy charCI q.data s.data none

/-- The characters stripped entirely by the sanitizer:
double quote, single quote, backtick, backslash, forward slash. -/
def isQuoteSlash (c : Char) : Bool :=
  c = '"' || c = '\'' || c = '`' || c = '\\' || c = '/'

/-- The JS regex whitespace class (the \s set), including the line terminators. -/
def isJsWs (c : Char) : Bool :=
  c = ' ' || c = '\t' || c = '\n' || c.val = 0x000b || c.val = 0x000c || c = '\r' ||
  c.val = 0x00a0 || c.val = 0x1680 || (0x2000 ≤ c.val && c.val ≤ 0x200a) ||
  c.val = 0x2028 || c.val = 0x2029 || c.val = 0x202f || c.val = 0x205f ||
  c.val = 0x3000 || c.val = 0xfeff

/-- Characters the sanitizer keeps as-is: word chars, whitespace, hyphen,
underscore, period (everything else becomes a space). -/
def isAllowedKeep (c : Char) : Bool :=
  isWordChar c || isJsWs c || c = '-' || c = '_' || c = '.'

/-- Collapse every maximal run of whitespace into a single space
(the replace of a whitespace-run regex by one space); the flag records
whether we are inside a whitespace run already emitted as one space. -/
def collapseWsAux : Bool → List Char → List Char
  | _, [] => []
  | inRun, c :: rest =>
    if isJsWs c then
      if inRun then collapseWsAux true rest
      else ' ' :: collapseWsAux true rest
    else c :: collapseWsAux false rest

/-- Collapse whitespace runs, starting outside any run. -/
def collapseWs (l : List Char) : List Char := collapseWsAux false l

/-- Strip leading and trailing whitespace (JS String.prototype.trim). -/
def trimWs (l : List Char) : List Char :=
  ((l.dropWhile isJsWs).reverse.dropWhile isJsWs).reverse

/-- The sanitizer pipeline on a character list: strip quotes/slashes, replace
other specials by a space, collapse whitespace, trim, truncate to maxLen. -/
def sanitizeList (l : List Char) (maxLen : Nat) : List Char :=
  (trimWs (collapseWs ((l.filter fun c => !isQuoteSlash c).map
    fun c => if isAllowedKeep c then c else ' '))).take maxLen

/-- sanitizeQuery from the source: undefined or empty (falsy) input yields the
empty string, otherwise the cleaning pipeline with the default 120-character
bound (every call site uses the default maxLen of 120). -/
def sanitizeQuery (raw : Option String) : String :=
  match raw with
  | none => ""
  | some s => if s = "" then "" else ⟨sanitizeList s.data 120⟩

/-- The populated author of a record (firstName/lastName as selected by populate). -/
structure Author where
  firstName : Option String
  lastName : Option String
deriving DecidableEq, Repr

/-- A gallery image document as the search subsystem reads it; every text
field may be absent (the source checks truthiness before scoring). -/
structure SearchRecord where
  title : Option String
  transformationType : Option String
  prompt : Option String
  color : Option String
  aspectRatio : Option String
  publicId : Option String
  author : Option Author
  updatedAt : Nat
deriving DecidableEq, Repr

/-- The value getAllImages returns: the page of records (scores stripped),
the total page count, and the unfiltered record count (savedImages). -/
structure ListingResult where
  data : List SearchRecord
  totalPages : Nat
  savedImages : Nat
deriving DecidableEq, Repr

/-- The transformationTypeMap table from the source, in source order. -/
def transformationTypeMap : List (String × List String) :=
  [("fill", ["fill", "background"]),
   ("remove", ["removeBackground", "remove", "background removal", "removebg"]),
   ("recolor", ["recolor", "color"]),
   ("removebg", ["removeBackground", "removebg", "background", "remove background"]),
   ("generative", ["generativeFill", "generative", "fill"]),
   ("restore", ["restore", "restoration"]),
   ("object", ["objectRemove", "object", "remove"]),
   ("blur", ["blur", "blurred"]),
   ("sharpen", ["sharpen", "sharp"]),
   ("grayscale", ["grayscale", "grey", "gray"]),
   ("sepia", ["sepia", "vintage"]),
   ("oil", ["oilPaint", "oil", "painting"]),
   ("cartoon", ["cartoonify", "cartoon", "anime"])]

/-- The commonMisspellings table from the source, in source order. -/
def commonMisspellings : List (String × List String) :=
  [("remove", ["remvoe", "remve", "rmove", "remov", "delete"]),
   ("background", ["bakground", "bckground", "backgound", "bg"]),
   ("color", ["colour", "clr", "colr"]),
   ("generative", ["genrative", "generatve", "gen"]),
   ("restore", ["restor", "restr", "fix"]),
   ("blur", ["blr", "blure"]),
   ("sharpen", ["sharpen", "sharpn"]),]

/-- The transformation-alias expansion: for each table row, if the lowercased
query contains the key or any of its variations, push all that row's
variations (in table order, duplicates kept, as the source loop does). -/
def transformationVariations (queryLower : String) : List String :=
  transformationTypeMap.flatMap fun kv =>
    if strIncludes queryLower kv.1 || kv.2.any (fun v => strIncludes queryLower v)
    then kv.2 else []

/-- The misspelling/synonym expansion: for each table row, if the query
contains the canonical form push all its misspellings, else if it contains
some misspelling push the canonical form. -/
def searchVariations (queryLower : String) : List String :=
  commonMisspellings.flatMap fun kv =>
    if strIncludes queryLower kv.1 then kv.2
    else if kv.2.any (fun m => strIncludes queryLower m) then [kv.1]
    else []

/-- Apply a string test to an optional field; a missing field never matches. -/
def optMatch (f : String → Bool) : Option String → Bool
  | none => false
  | some s => f s

/-- The searchFilterConditions disjunction from the source: word-boundary
regex on five fields, plain regex on those plus publicId, plain regex on the
author names, the transformation variations against transformationType, and
the spelling variations against title/transformationType/prompt. -/
def searchFilter (q : String) (tv sv : List String) (rec : SearchRecord) : Bool :=
  optMatch (wordRegexMatch q) rec.title ||
  optMatch (wordRegexMatch q) rec.transformationType ||
  optMatch (wordRegexMatch q) rec.prompt ||
  optMatch (wordRegexMatch q) rec.aspectRatio ||
  optMatch (wordRegexMatch q) rec.color ||
  optMatch (regexContains q) rec.title ||
  optMatch (regexContains q) rec.transformationType ||
  optMatch (regexContains q) rec.prompt ||
  optMatch (regexContains q) rec.aspectRatio ||
  optMatch (regexContains q) rec.color ||
  optMatch (regexContains q) rec.publicId ||
  (match rec.author with
   | none => false
   | some a => optMatch (regexContains q) a.firstName ||
               optMatch (regexContains q) a.lastName) ||
  tv.any (fun v => optMatch (regexContains v) rec.transformationType) ||
  sv.any (fun v => optMatch (regexContains v) rec.title ||
                   optMatch (regexContains v) rec.transformationType ||
                   optMatch (regexContains v) rec.prompt)

/-- Title tier of the scorer: +100 exact, else +50 contains, else +25 when
some space-delimited word of the title starts with the query; an absent or
empty (falsy) title contributes 0. -/
def titleScore (t : Option String) (query : String) : Nat :=
  match t with
  | none => 0
  | some t =>
    if t = "" then 0 else
    let tl := lowerStr t
    if tl = query then 100
    else if strIncludes tl query then 50
    else if (tl.splitOn " ").any (fun w => query.data.isPrefixOf w.data) then 25
    else 0

/-- transformationType tier of the scorer: +80 exact, else +40 contains,
else +35 when the lowercased type contains some lowercased transformation
variation; absent or empty contributes 0. -/
def ttScore (t : Option String) (query : String) (tv : List String) : Nat :=
  match t with
  | none => 0
  | some t =>
    if t = "" then 0 else
    let tl := lowerStr t
    if tl = query then 80
    else if strIncludes tl query then 40
    else if tv.any (fun v => strIncludes tl (lowerStr v)) then 35
    else 0

/-- A contains-only scoring tier worth pts (used for prompt, color, aspectRatio). -/
def containsScore (t : Option String) (query : String) (pts : Nat) : Nat :=
  match t with
  | none => 0
  | some t =>
    if t = "" then 0 else
    if strIncludes (lowerStr t) query then pts else 0

/-- Author tier of the scorer: +35 when the lowercased first or last name
(missing names read as the empty string) contains the query. -/
def authorScore (a : Option Author) (query : String) : Nat :=
  match a with
  | none => 0
  | some a =>
    let fn := lowerStr (a.firstName.getD "")
    let ln := lowerStr (a.lastName.getD "")
    if strIncludes fn query || strIncludes ln query then 35 else 0

/-- The relevance scorer: the sum of the per-field tiers, where query is the
lowercased sanitized query and tv the transformation variations. -/
def score (rec : SearchRecord) (query : String) (tv : List String) : Nat :=
  titleScore rec.title query +
  ttScore rec.transformationType query tv +
  containsScore rec.prompt query 30 +
  containsScore rec.color query 20 +
  containsScore rec.aspectRatio query 15 +
  authorScore rec.author query

/-- Insert x into an already-sorted list, before the first element it may
precede (so equal elements keep the earlier element first: stability). -/
def insertByLE {α : Type} (le : α → α → Bool) (x : α) : List α → List α
  | [] => [x]
  | y :: ys => if le x y then x :: y :: ys else y :: insertByLE le x ys

/-- Stable insertion sort by a may-precede relation: the JS stable
Array.prototype.sort with a comparator. -/
def stableSortBy {α : Type} (le : α → α → Bool) : List α → List α
  | [] => []
  | x :: xs => insertByLE le x (stableSortBy le xs)

/-- The sort comparator as a may-precede relation: a precedes b when its
score is higher, or on equal scores when its updatedAt is at least b's
(JS stable sort with the score/updatedAt comparator). -/
def scoredLE (a b : Nat × SearchRecord) : Bool :=
  b.1 < a.1 || (a.1 == b.1 && b.2.updatedAt ≤ a.2.updatedAt)

/-- Stable sort of scored records: score descending, ties by updatedAt descending. -/
def sortScored (l : List (Nat × SearchRecord)) : List (Nat × SearchRecord) :=
  stableSortBy scoredLE l

/-- updatedAt-descending may-precede relation (the database sort on updatedAt: -1). -/
def updLE (a b : SearchRecord) : Bool := b.updatedAt ≤ a.updatedAt

/-- Stable sort by updatedAt descending. -/
def recencySort (db : List SearchRecord) : List SearchRecord := stableSortBy updLE db

/-- ceil(count / limit) on naturals (Math.ceil of the real quotient for limit > 0). -/
def ceilDiv (count limit : Nat) : Nat := (count + limit - 1) / limit

/-- totalPages = max(1, ceil(count / limit)). -/
def totalPagesOf (count limit : Nat) : Nat := max 1 (ceilDiv count limit)

/-- Sort the scored records and take the page slice
[(page-1)*limit, (page-1)*limit + limit), clipped to the available records. -/
def paginateData (l : List (Nat × SearchRecord)) (page limit : Nat) :
    List (Nat × SearchRecord) :=
  ((sortScored l).drop ((page - 1) * limit)).take limit

/-- getAllImages from the source, shallowly embedded.  credsConfigured tells
whether the three media-API environment credentials are all present; db is
the backing collection in insertion order; page, limit and searchQuery are
the request parameters.  Three paths as in the source: the
missing-credentials fallback (simple title/transformationType regex filter,
database-native sort/skip/limit), the no-raw-query recency page, and the
sanitize/expand/filter/score/sort/slice search path. -/
def getAllImages (credsConfigured : Bool) (db : List SearchRecord)
    (page limit : Nat) (searchQuery : String) : ListingResult :=
  if !credsConfigured then
    let filtered := db.filter fun r =>
      optMatch (regexContains searchQuery) r.title ||
      optMatch (regexContains searchQuery) r.transformationType
    let skipAmount := (page - 1) * limit
    { data := ((recencySort filtered).drop skipAmount).take limit,
      totalPages := totalPagesOf filtered.length limit,
      savedImages := db.length }
  else if searchQuery = "" then
    let skipAmount := (page - 1) * limit
    { data := ((recencySort db).drop skipAmount).take limit,
      totalPages := totalPagesOf db.length limit,
      savedImages := db.length }
  else
    let sanitizedQuery := sanitizeQuery (some searchQuery)
    let queryLower := lowerStr sanitizedQuery
    let tv := transformationVariations queryLower
    let sv := searchVariations queryLower
    let matching := db.filter (searchFilter sanitizedQuery tv sv)
    let scored := matching.map fun r => (score r queryLower tv, r)
    { data := (paginateData scored page limit).map (·.2),
      totalPages := totalPagesOf matching.length limit,
      savedImages := db.length }

/-- Does the string avoid the period (the one regex metacharacter the
sanitizer lets through)? -/
def noDot (s : String) : Bool := s.data.all fun c => c != '.'

/-- The claim-side no-query result: the recency page (updatedAt descending,
database-native skip/limit), total pages from the full count, full count as
savedImages; defined without reference to expander, filter or scorer. -/
def recencyListing (db : List SearchRecord) (page limit : Nat) : ListingResult :=
  { data := ((recencySort db).drop ((page - 1) * limit)).take limit,
    totalPages := totalPagesOf db.length limit,
    savedImages := db.length }

/-- The claim-side reading of the filter predicate: word-boundary and
substring tests taken as literal (non-metacharacter), case-insensitive
containment of the query text, in the same disjunct structure. -/
def claimFilterPred (q : String) (tv sv : List String) (rec : SearchRecord) : Bool :=
  optMatch (wordLitMatch q) rec.title ||
  optMatch (wordLitMatch q) rec.transformationType ||
  optMatch (wordLitMatch q) rec.prompt ||
  optMatch (wordLitMatch q) rec.aspectRatio ||
  optMatch (wordLitMatch q) rec.color ||
  optMatch (litContainsCI q) rec.title ||
  optMatch (litContainsCI q) rec.transformationType ||
  optMatch (litContainsCI q) rec.prompt ||
  optMatch (litContainsCI q) rec.aspectRatio ||
  optMatch (litContainsCI q) rec.color ||
  optMatch (litContainsCI q) rec.publicId ||
  (match rec.author with
   | none => false
   | some a => optMatch (litContainsCI q) a.firstName ||
               optMatch (litContainsCI q) a.lastName) ||
  tv.any (fun v => optMatch (litContainsCI v) rec.transformationType) ||
  sv.any (fun v => optMatch (litContainsCI v) rec.title ||
                   optMatch (litContainsCI v) rec.transformationType ||
                   optMatch (litContainsCI v) rec.prompt)

/-- The claim-side missing-credentials result: a case-insensitive regex
filter over title and transformationType only, recency order, database-native
skip/limit, total pages from the filtered count; no expansion, no scoring. -/
def fallbackListing (db : List SearchRecord) (page limit : Nat) (q : String) :
    ListingResult :=
  { data := ((recencySort (db.filter fun r =>
        optMatch (regexContains q) r.title ||
        optMatch (regexContains q) r.transformationType)).drop
        ((page - 1) * limit)).take limit,
    totalPages := totalPagesOf (db.filter fun r =>
        optMatch (regexContains q) r.title ||
        optMatch (regexContains q) r.transformationType).length limit,
    savedImages := db.length }

/-- A record whose only text field is the title "x" (older of a pair). -/
def recTitleX : SearchRecord := ⟨some "x", none, none, none, none, none, none, 1⟩

/-- A record whose only text field is the transformation type "y" (newer of a pair). -/
def recTypeY : SearchRecord := ⟨none, some "y", none, none, none, none, none, 2⟩

/-- A record titled exactly "cat". -/
def recCat : SearchRecord := ⟨some "cat", none, none, none, none, none, none, 0⟩

/-- A record titled "cats" (contains "cat" without equalling it). -/
def recCats : SearchRecord := ⟨some "cats", none, none, none, none, none, none, 0⟩

/-- A record whose transformation type is exactly "fill". -/
def recFill : SearchRecord := ⟨none, some "fill", none, none, none, none, none, 0⟩

/-- A record whose transformation type "objectx" contains the variation
"object" but not the query "remove". -/
def recObjectx : SearchRecord := ⟨none, some "objectx", none, none, none, none, none, 0⟩

/-- A record titled "axb": matched by the regex a.b but not containing it literally. -/
def recAxb : SearchRecord := ⟨some "axb", none, none, none, none, none, none, 0⟩

theorem matchAtBy_congr {m m' : Char → Char → Bool} {p : List Char}
    (h : ∀ a ∈ p, ∀ b, m a b = m' a b) :
    ∀ s, matchAtBy m p s = matchAtBy m' p s := by
  induction p with
  | nil => intro s; cases s <;> rfl
  | cons pc p' ih =>
    intro s
    cases s with
    | nil => rfl
    | cons sc s' =>
      simp only [matchAtBy]
      rw [h pc (List.mem_cons_self _ _),
        ih (fun a ha b => h a (List.mem_cons_of_mem _ ha) b) s']

theorem occursBy_congr {m m' : Char → Char → Bool} {p : List Char}
    (h : ∀ a ∈ p, ∀ b, m a b = m' a b) :
    ∀ s, occursBy m p s = occursBy m' p s := by
  intro s
  induction s with
  | nil => simp only [occursBy]; exact matchAtBy_congr h []
  | cons c s' ih => simp only [occursBy]; rw [matchAtBy_congr h _, ih]

theorem prefixBdBy_congr {m m' : Char → Char → Bool} {p : List Char}
    (h : ∀ a ∈ p, ∀ b, m a b = m' a b) :
    ∀ s last, prefixBdBy m p s last = prefixBdBy m' p s last := by
  induction p with
  | nil => intro s last; rfl
  | cons pc p' ih =>
    intro s last
    cases s with
    | nil => rfl
    | cons sc s' =>
      simp only [prefixBdBy]
      rw [h pc (List.mem_cons_self _ _),
        ih (fun a ha b => h a (List.mem_cons_of_mem _ ha) b) s' (some sc)]

theorem wordScanBy_congr {m m' : Char → Char → Bool} {p : List Char}
    (h : ∀ a ∈ p, ∀ b, m a b = m' a b) :
    ∀ s prev, wordScanBy m p s prev = wordScanBy m' p s prev := by
  intro s
  induction s with
  | nil => intro prev; simp only [wordScanBy]; rw [prefixBdBy_congr h]
  | cons c s' ih => intro prev; simp only [wordScanBy]; rw [prefixBdBy_congr h, ih]

theorem charMatch_of_ne_dot {a : Char} (ha : a ≠ '.') (b : Char) :
    charMatch a b = charCI a b := by
  simp [charMatch, charCI, ha]

theorem noDot_mem {q : String} (h : noDot q = true) : ∀ a ∈ q.data, a ≠ '.' := by
  intro a ha
  have := List.all_eq_true.mp h a ha
  simpa using this

theorem regexContains_eq_lit {q : String} (h : noDot q = true) (s : String) :
    regexContains q s = litContainsCI q s :=
  occursBy_congr (fun a ha b => charMatch_of_ne_dot (noDot_mem h a ha) b) s.data

theorem wordRegexMatch_eq_lit {q : String} (h : noDot q = true) (s : String) :
    wordRegexMatch q s = wordLitMatch q s :=
  wordScanBy_congr (fun a ha b => charMatch_of_ne_dot (noDot_mem h a ha) b) s.data none

theorem optMatch_congr {f g : String → Bool} (h : ∀ s, f s = g s) :
    ∀ o, optMatch f o = optMatch g o := by
  intro o; cases o <;> simp [optMatch, h]

theorem any_congrMem {α : Type} {l : List α} {f g : α → Bool}
    (h : ∀ a ∈ l, f a = g a) : l.any f = l.any g := by
  induction l with
  | nil => rfl
  | cons a l ih =>
    simp only [List.any_cons]
    rw [h a (List.mem_cons_self _ _), ih fun a ha => h a (List.mem_cons_of_mem _ ha)]

theorem transformationTypeMap_noDot :
    (transformationTypeMap.all fun kv => kv.2.all noDot) = true := by decide

theorem commonMisspellings_noDot :
    (commonMisspellings.all fun kv => noDot kv.1 && kv.2.all noDot) = true := by decide

theorem noDot_of_mem_transformationVariations {ql v : String}
    (h : v ∈ transformationVariations ql) : noDot v = true := by
  unfold transformationVariations at h
  rw [List.mem_flatMap] at h
  obtain ⟨kv, hkv, hv⟩ := h
  split at hv
  · exact List.all_eq_true.mp (List.all_eq_true.mp transformationTypeMap_noDot kv hkv) v hv
  · cases hv

theorem noDot_of_mem_searchVariations {ql v : String}
    (h : v ∈ searchVariations ql) : noDot v = true := by
  unfold searchVariations at h
  rw [List.mem_flatMap] at h
  obtain ⟨kv, hkv, hv⟩ := h
  have h1 := List.all_eq_true.mp commonMisspellings_noDot kv hkv
  rw [Bool.and_eq_true] at h1
  split at hv
  · exact List.all_eq_true.mp h1.2 v hv
  · split at hv
    · rw [List.mem_singleton] at hv; subst hv; exact h1.1
    · cases hv

theorem le_ceil_mul (n m : Nat) (hm : 0 < m) : n ≤ ((n + m - 1) / m) * m := by
  have h1 : (n + m - 1) % m < m := Nat.mod_lt _ hm
  have h2 : m * ((n + m - 1) / m) + (n + m - 1) % m = n + m - 1 :=
    Nat.div_add_mod _ _
  rw [Nat.mul_comm]
  generalize hgen : m * ((n + m - 1) / m) = p at h2 ⊢
  omega

theorem page_slice_nil {α : Type} (L : List α) (count page limit : Nat)
    (hc : L.length = count) (hl : 0 < limit)
    (hp : totalPagesOf count limit < page) :
    (L.drop ((page - 1) * limit)).take limit = [] := by
  have h1 : count ≤ ceilDiv count limit * limit := le_ceil_mul count limit hl
  have h2 : ceilDiv count limit < page :=
    lt_of_le_of_lt (Nat.le_max_right 1 _) hp
  have h3 : ceilDiv count limit * limit ≤ (page - 1) * limit :=
    Nat.mul_le_mul_right _ (by omega)
  have h4 : L.length ≤ (page - 1) * limit := by rw [hc]; omega
  rw [List.drop_eq_nil_of_le h4]
  simp

theorem titleScore_le (t : Option String) (q : String) : titleScore t q ≤ 100 := by
  cases t with
  | none => simp [titleScore]
  | some s => simp only [titleScore]; split_ifs <;> omega

theorem ttScore_le (t : Option String) (q : String) (tv : List String) :
    ttScore t q tv ≤ 80 := by
  cases t with
  | none => simp [ttScore]
  | some s => simp only [ttScore]; split_ifs <;> omega

theorem containsScore_le (t : Option String) (q : String) (pts : Nat) :
    containsScore t q pts ≤ pts := by
  cases t with
  | none => simp [containsScore]
  | some s => simp only [containsScore]; split_ifs <;> omega

theorem authorScore_le (a : Option Author) (q : String) : authorScore a q ≤ 35 := by
  cases a with
  | none => simp [authorScore]
  | some a => simp only [authorScore]; split_ifs <;> omega

theorem mem_collapseWsAux {l : List Char} {c : Char} :
    ∀ b : Bool, c ∈ collapseWsAux b l → c = ' ' ∨ c ∈ l := by
  induction l with
  | nil => intro b hc; cases hc
  | cons d rest ih =>
    intro b hc
    rw [collapseWsAux] at hc
    by_cases hd : isJsWs d
    · rw [if_pos hd] at hc
      cases b with
      | true =>
        rcases ih true hc with h2 | h2
        · exact Or.inl h2
        · exact Or.inr (List.mem_cons_of_mem _ h2)
      | false =>
        rcases List.mem_cons.mp hc with h1 | h1
        · exact Or.inl h1
        · rcases ih true h1 with h2 | h2
          · exact Or.inl h2
          · exact Or.inr (List.mem_cons_of_mem _ h2)
    · rw [if_neg hd] at hc
      rcases List.mem_cons.mp hc with h1 | h1
      · exact Or.inr (h1 ▸ List.mem_cons_self _ _)
      · rcases ih false h1 with h2 | h2
        · exact Or.inl h2
        · exact Or.inr (List.mem_cons_of_mem _ h2)

theorem mem_collapseWs {l : List Char} {c : Char} (hc : c ∈ collapseWs l) :
    c = ' ' ∨ c ∈ l :=
  mem_collapseWsAux false hc

theorem trimWs_subset (l : List Char) : trimWs l ⊆ l := by
  intro c hc
  unfold trimWs at hc
  rw [List.mem_reverse] at hc
  have h1 := (List.dropWhile_sublist _).subset hc
  rw [List.mem_reverse] at h1
  exact (List.dropWhile_sublist _).subset h1

theorem sanitize_chars (raw : Option String) :
    ∀ c ∈ (sanitizeQuery raw).data, isQuoteSlash c = false := by
  intro c hc
  cases raw with
  | none => simp [sanitizeQuery] at hc
  | some s =>
    by_cases hs : s = ""
    · simp [sanitizeQuery, hs] at hc
    · simp only [sanitizeQuery, if_neg hs] at hc
      have hc1 : c ∈ sanitizeList s.data 120 := hc
      unfold sanitizeList at hc1
      have hc2 := trimWs_subset _ (List.take_subset _ _ hc1)
      rcases mem_collapseWs hc2 with h1 | h1
      · subst h1; decide
      · rcases List.mem_map.mp h1 with ⟨a, ha, heq⟩
        by_cases hk : isAllowedKeep a
        · rw [if_pos hk] at heq
          subst heq
          have := (List.mem_filter.mp ha).2
          simpa using this
        · rw [if_neg hk] at heq
          subst heq
          decide

/-- C6: for every raw input string (and for the undefined input), the
sanitizer's output contains no double quote, single quote, backtick,
backslash or forward slash, and its length never exceeds 120 characters. -/
theorem c6_sanitizer_safe (raw : Option String) :
    ((sanitizeQuery raw).data.all fun c => !isQuoteSlash c) = true ∧
    (sanitizeQuery raw).length ≤ 120 := by
  constructor
  · rw [List.all_eq_true]
    intro c hc
    rw [sanitize_chars raw c hc]
    rfl
  · cases raw with
    | none => simp [sanitizeQuery]
    | some s =>
      by_cases hs : s = ""
      · simp [sanitizeQuery, hs]
      · simp only [sanitizeQuery, if_neg hs]
        show (sanitizeList s.data 120).length ≤ 120
        unfold sanitizeList
        rw [List.length_take]
        exact Nat.min_le_left _ _

/-- C10: for every record, lowercased query and variation list, the relevance
score (a Nat, hence non-negative) is at most 280 = 100 + 80 + 30 + 20 + 15 + 35,
one maximal tier per field, summed across the six scored fields. -/
theorem c10_score_bounded (rec : SearchRecord) (q : String) (tv : List String) :
    score rec q tv ≤ 280 := by
  have h1 := titleScore_le rec.title q
  have h2 := ttScore_le rec.transformationType q tv
  have h3 := containsScore_le rec.prompt q 30
  have h4 := containsScore_le rec.color q 20
  have h5 := containsScore_le rec.aspectRatio q 15
  have h6 := authorScore_le rec.author q
  unfold score
  omega

/-- C1 counterexample: two records identical except for the title, query
"cat": the exact-title record scores 100, the contains-title record scores
50, so the gap is 50, not at least 100 as the claim states. -/
theorem c1_counterexample :
    lowerStr "cat" = "cat" ∧
    strIncludes (lowerStr "cats") "cat" = true ∧
    lowerStr "cats" ≠ "cat" ∧
    score recCat "cat" (transformationVariations "cat") = 100 ∧
    score recCats "cat" (transformationVariations "cat") = 50 ∧
    ¬(score recCats "cat" (transformationVariations "cat") + 100 ≤
      score recCat "cat" (transformationVariations "cat")) := by
  decide

theorem strIncludes_empty_left {q : String} (hq : q ≠ "") :
    strIncludes "" q = false := by
  show occursBy charCS q.data "".data = false
  cases hq2 : q.data with
  | nil =>
    exfalso
    apply hq
    cases q with
    | mk l => simp only [String.data] at hq2; rw [hq2]
  | cons c cs => rfl

theorem lowerStr_empty : lowerStr "" = "" := by decide

/-- C1 (amended): for every pair of records identical except for their title,
one with lowercased title equal to the non-empty query and the other whose
title merely contains the query (without equalling it), the exact-match
record scores at least 50 points more than the substring-match record. -/
theorem c1_exact_beats_substring (r : SearchRecord) (t t' q : String)
    (tv : List String) (hq : q ≠ "") (hex : lowerStr t = q)
    (hsub : strIncludes (lowerStr t') q = true) (hne : lowerStr t' ≠ q) :
    score { r with title := some t' } q tv + 50 ≤
    score { r with title := some t } q tv := by
  have ht : t ≠ "" := by
    intro h
    apply hq
    rw [← hex, h]
    exact lowerStr_empty
  have ht' : t' ≠ "" := by
    intro h
    rw [h, lowerStr_empty, strIncludes_empty_left hq] at hsub
    cases hsub
  have hA : titleScore (some t) q = 100 := by
    simp [titleScore, ht, hex]
  have hB : titleScore (some t') q = 50 := by
    simp [titleScore, ht', hne, hsub]
  simp only [score, hA, hB]
  omega

theorem c1_witness :
    ("cat" : String) ≠ "" ∧ lowerStr "cat" = "cat" ∧
    strIncludes (lowerStr "cats") "cat" = true ∧ lowerStr "cats" ≠ "cat" ∧
    score { recCat with title := some "cats" } "cat" [] + 50 ≤
      score { recCat with title := some "cat" } "cat" [] :=
  ⟨by decide, by decide, by decide, by decide,
   c1_exact_beats_substring recCat "cat" "cats" "cat" []
     (by decide) (by decide) (by decide) (by decide)⟩

/-- C2 counterexample: query "fill" against a record whose transformationType
is exactly "fill": a transformation variation is contained, yet the score is
80 (the exact tier alone), not 80 + 35 as the claim of an independent +35
bonus would give. -/
theorem c2_counterexample :
    ((transformationVariations "fill").any fun v =>
      strIncludes (lowerStr "fill") (lowerStr v)) = true ∧
    score recFill "fill" (transformationVariations "fill") = 80 ∧
    score recFill "fill" (transformationVariations "fill") ≠ 80 + 35 := by
  decide

/-- C2 (amended): the +35 transformation-variation bonus is the third branch
of the transformationType tier chain, not an independent addition: when the
exact (+80) or contains (+40) tier fires it contributes nothing (the score
equals the score computed with no variations), and it contributes exactly 35
only when neither of those tiers fires and some variation is contained. -/
theorem c2_variation_tier_exclusive (rec : SearchRecord) (q : String)
    (tv : List String) (t : String) (ht : rec.transformationType = some t)
    (hne : t ≠ "") :
    ((lowerStr t = q ∨ strIncludes (lowerStr t) q = true) →
      score rec q tv = score rec q []) ∧
    (lowerStr t ≠ q → strIncludes (lowerStr t) q = false →
      (tv.any fun v => strIncludes (lowerStr t) (lowerStr v)) = true →
      score rec q tv = score rec q [] + 35) := by
  constructor
  · intro hx
    have e1 : ttScore rec.transformationType q tv = ttScore rec.transformationType q [] := by
      rcases hx with hx | hx
      · rw [ht]; simp [ttScore, hne, hx]
      · by_cases hexact : lowerStr t = q
        · rw [ht]; simp [ttScore, hne, hexact]
        · rw [ht]; simp [ttScore, hne, hexact, hx]
    simp only [score, e1]
  · intro h1 h2 h3
    have e1 : ttScore rec.transformationType q tv = 35 := by
      rw [ht]; simp [ttScore, hne, h1, h2, h3]
    have e2 : ttScore rec.transformationType q [] = 0 := by
      rw [ht]; simp [ttScore, hne, h1, h2]
    simp only [score, e1, e2]
    omega

theorem c2_witness :
    recObjectx.transformationType = some "objectx" ∧
    ("objectx" : String) ≠ "" ∧
    lowerStr "objectx" ≠ "remove" ∧
    strIncludes (lowerStr "objectx") "remove" = false ∧
    ((transformationVariations "remove").any fun v =>
      strIncludes (lowerStr "objectx") (lowerStr v)) = true ∧
    score recObjectx "remove" (transformationVariations "remove") =
      score recObjectx "remove" [] + 35 :=
  ⟨rfl, by decide, by decide, by decide, by decide,
   (c2_variation_tier_exclusive recObjectx "remove"
     (transformationVariations "remove") "objectx" rfl (by decide)).2
     (by decide) (by decide) (by decide)⟩

/-- C7: for every lowercased query and every canonical/misspelling row of the
misspelling table, containing the canonical form adds all its misspellings,
and otherwise containing some misspelling adds the canonical form; in
particular the query remvoe bg yields the variation remove. -/
theorem c7_misspelling_expansion (q canon : String) (missp : List String)
    (hmem : (canon, missp) ∈ commonMisspellings) :
    ((strIncludes q canon = true → ∀ m ∈ missp, m ∈ searchVariations q) ∧
     (strIncludes q canon = false →
       (missp.any fun m => strIncludes q m) = true →
       canon ∈ searchVariations q)) ∧
    "remove" ∈ searchVariations "remvoe bg" := by
  constructor
  · constructor
    · intro h m hm
      unfold searchVariations
      rw [List.mem_flatMap]
      exact ⟨(canon, missp), hmem, by simpa [h] using hm⟩
    · intro h1 h2
      unfold searchVariations
      rw [List.mem_flatMap]
      exact ⟨(canon, missp), hmem, by simp [h1, h2]⟩
  · decide

theorem c7_witness :
    ("remove", ["remvoe", "remve", "rmove", "remov", "delete"]) ∈ commonMisspellings ∧
    strIncludes "remvoe bg" "remove" = false ∧
    ((["remvoe", "remve", "rmove", "remov", "delete"] : List String).any fun m =>
      strIncludes "remvoe bg" m) = true ∧
    "remove" ∈ searchVariations "remvoe bg" :=
  ⟨by decide, by decide, by decide,
   (c7_misspelling_expansion "remvoe bg" "remove"
     ["remvoe", "remve", "rmove", "remov", "delete"] (by decide)).1.2
     (by decide) (by decide)⟩

theorem insertByLE_perm {α : Type} (le : α → α → Bool) (x : α) :
    ∀ l : List α, (insertByLE le x l).Perm (x :: l) := by
  intro l
  induction l with
  | nil => simp [insertByLE]
  | cons y ys ih =>
    rw [insertByLE]
    by_cases h : le x y
    · rw [if_pos h]
    · rw [if_neg h]
      exact (ih.cons y).trans (List.Perm.swap x y ys)

theorem stableSortBy_perm {α : Type} (le : α → α → Bool) :
    ∀ l : List α, (stableSortBy le l).Perm l := by
  intro l
  induction l with
  | nil => simp [stableSortBy]
  | cons x xs ih =>
    rw [stableSortBy]
    exact (insertByLE_perm le x _).trans (ih.cons x)

theorem mem_stableSortBy {α : Type} {le : α → α → Bool} {l : List α} {a : α} :
    a ∈ stableSortBy le l ↔ a ∈ l :=
  (stableSortBy_perm le l).mem_iff

theorem stableSortBy_length {α : Type} (le : α → α → Bool) (l : List α) :
    (stableSortBy le l).length = l.length :=
  (stableSortBy_perm le l).length_eq

theorem pairwise_insertByLE {α : Type} {le : α → α → Bool}
    (htrans : ∀ a b c, le a b = true → le b c = true → le a c = true)
    (htotal : ∀ a b, (le a b || le b a) = true) (x : α) :
    ∀ {l : List α}, l.Pairwise (fun a b => le a b = true) →
      (insertByLE le x l).Pairwise (fun a b => le a b = true) := by
  intro l
  induction l with
  | nil => intro _; simp [insertByLE]
  | cons y ys ih =>
    intro hp
    rw [insertByLE]
    rcases List.pairwise_cons.mp hp with ⟨hy, hys⟩
    by_cases h : le x y = true
    · rw [if_pos h]
      refine List.pairwise_cons.mpr ⟨?_, hp⟩
      intro z hz
      rcases List.mem_cons.mp hz with rfl | hz'
      · exact h
      · exact htrans x y z h (hy z hz')
    · rw [if_neg h]
      have hyx : le y x = true := by
        have h2 := htotal x y
        rw [Bool.or_eq_true] at h2
        rcases h2 with h1 | h1
        · exact absurd h1 h
        · exact h1
      refine List.pairwise_cons.mpr ⟨?_, ih hys⟩
      intro z hz
      have hz2 := (insertByLE_perm le x ys).mem_iff.mp hz
      rcases List.mem_cons.mp hz2 with rfl | hz'
      · exact hyx
      · exact hy z hz'

theorem stableSortBy_pairwise {α : Type} {le : α → α → Bool}
    (htrans : ∀ a b c, le a b = true → le b c = true → le a c = true)
    (htotal : ∀ a b, (le a b || le b a) = true) :
    ∀ l : List α, (stableSortBy le l).Pairwise (fun a b => le a b = true) := by
  intro l
  induction l with
  | nil => simp [stableSortBy]
  | cons x xs ih =>
    rw [stableSortBy]
    exact pairwise_insertByLE htrans htotal x ih

theorem updLE_trans :
    ∀ a b c : SearchRecord, updLE a b = true → updLE b c = true → updLE a c = true := by
  intro a b c
  simp [updLE]
  omega

theorem updLE_total : ∀ a b : SearchRecord, (updLE a b || updLE b a) = true := by
  intro a b
  simp [updLE]
  omega

theorem recencySort_sorted (db : List SearchRecord) :
    (recencySort db).Pairwise fun a b => b.updatedAt ≤ a.updatedAt := by
  have h := stableSortBy_pairwise updLE_trans updLE_total db
  exact h.imp fun hab => by simpa [updLE] using hab

theorem recencySort_perm (db : List SearchRecord) : (recencySort db).Perm db :=
  stableSortBy_perm updLE db

/-- C3 counterexample: the raw query "!!!" sanitizes to the empty string, yet
the orchestrator does not return the recency page: with two records where
recency order and score order disagree, the returned page differs from the
recency page, because the no-query branch tests the raw query, not the
sanitized one. -/
theorem c3_counterexample :
    sanitizeQuery (some "!!!") = "" ∧
    (getAllImages true [recTitleX, recTypeY] 1 1 "!!!").data ≠
      (recencyListing [recTitleX, recTypeY] 1 1).data := by
  decide

/-- C3 (amended): only when the raw search query is the empty string does the
orchestrator return the plain recency page (updatedAt descending, database
skip/limit, totalPages from the full count), defined without reference to
expander, filter builder, scorer or in-memory paginator; a non-empty raw
query that merely sanitizes to empty instead flows through the search path. -/
theorem c3_empty_raw_query_recency (db : List SearchRecord) (page limit : Nat) :
    getAllImages true db page limit "" = recencyListing db page limit ∧
    (recencySort db).Pairwise (fun a b => b.updatedAt ≤ a.updatedAt) ∧
    (recencySort db).Perm db :=
  ⟨rfl, recencySort_sorted db, recencySort_perm db⟩

/-- C4 counterexample: the sanitized query a.b (the period survives
sanitization) regex-matches the title "axb", so the record passes the filter,
while no disjunct of the literal-containment reading holds: substring match
in the filter is not literal containment of the query text. -/
theorem c4_counterexample :
    searchFilter "a.b" (transformationVariations (lowerStr "a.b"))
      (searchVariations (lowerStr "a.b")) recAxb = true ∧
    claimFilterPred "a.b" (transformationVariations (lowerStr "a.b"))
      (searchVariations (lowerStr "a.b")) recAxb = false := by
  decide

/-- C4 (amended): for every non-empty sanitized query containing no period,
the filter predicate is satisfied exactly when the claimed disjunction holds,
with substring match read as literal case-insensitive containment: the
word-boundary match on title/transformationType/prompt/aspectRatio/color, the
substring match on those plus publicId, the author first/last name substring
match, a transformation variation contained in transformationType, or a
spelling variation contained in title/transformationType/prompt. -/
theorem c4_filter_characterization (q : String) (rec : SearchRecord)
    (hq : q ≠ "") (hnd : noDot q = true) :
    searchFilter q (transformationVariations (lowerStr q))
      (searchVariations (lowerStr q)) rec =
    claimFilterPred q (transformationVariations (lowerStr q))
      (searchVariations (lowerStr q)) rec := by
  have hw : ∀ o, optMatch (wordRegexMatch q) o = optMatch (wordLitMatch q) o :=
    optMatch_congr (wordRegexMatch_eq_lit hnd)
  have hr : ∀ o, optMatch (regexContains q) o = optMatch (litContainsCI q) o :=
    optMatch_congr (regexContains_eq_lit hnd)
  have htv : ((transformationVariations (lowerStr q)).any fun v =>
        optMatch (regexContains v) rec.transformationType) =
      ((transformationVariations (lowerStr q)).any fun v =>
        optMatch (litContainsCI v) rec.transformationType) :=
    any_congrMem fun v hv =>
      optMatch_congr
        (regexContains_eq_lit (noDot_of_mem_transformationVariations hv)) _
  have hsv : ((searchVariations (lowerStr q)).any fun v =>
        optMatch (regexContains v) rec.title ||
        optMatch (regexContains v) rec.transformationType ||
        optMatch (regexContains v) rec.prompt) =
      ((searchVariations (lowerStr q)).any fun v =>
        optMatch (litContainsCI v) rec.title ||
        optMatch (litContainsCI v) rec.transformationType ||
        optMatch (litContainsCI v) rec.prompt) :=
    any_congrMem fun v hv => by
      have h := regexContains_eq_lit (noDot_of_mem_searchVariations hv)
      rw [optMatch_congr h rec.title, optMatch_congr h rec.transformationType,
        optMatch_congr h rec.prompt]
  unfold searchFilter claimFilterPred
  rw [htv, hsv]
  simp only [hw, hr]

theorem c4_witness :
    ("cat" : String) ≠ "" ∧ noDot "cat" = true ∧
    searchFilter "cat" (transformationVariations (lowerStr "cat"))
      (searchVariations (lowerStr "cat")) recCat =
    claimFilterPred "cat" (transformationVariations (lowerStr "cat"))
      (searchVariations (lowerStr "cat")) recCat :=
  ⟨by decide, by decide,
   c4_filter_characterization "cat" recCat (by decide) (by decide)⟩

theorem scoredLE_trans :
    ∀ a b c : Nat × SearchRecord,
      scoredLE a b = true → scoredLE b c = true → scoredLE a c = true := by
  intro a b c
  simp [scoredLE]
  omega

theorem scoredLE_total :
    ∀ a b : Nat × SearchRecord, (scoredLE a b || scoredLE b a) = true := by
  intro a b
  simp [scoredLE]
  omega

/-- C5: the paginator sorts scored records by score descending with ties
broken by updatedAt descending (the sorted list is pairwise so ordered and a
permutation of the input), the page is the contiguous clipped slice
[(page-1)*pageSize, (page-1)*pageSize + pageSize) of the sorted list,
totalPages = max(1, ceil(count/pageSize)); and 11 scored records with
pageSize 9, page 2 yield exactly 2 records and totalPages 2. -/
theorem c5_paginator (l : List (Nat × SearchRecord)) (page limit : Nat)
    (hl : 0 < limit) :
    (sortScored l).Pairwise (fun a b =>
      b.1 < a.1 ∨ (a.1 = b.1 ∧ b.2.updatedAt ≤ a.2.updatedAt)) ∧
    (sortScored l).Perm l ∧
    paginateData l page limit =
      ((sortScored l).drop ((page - 1) * limit)).take limit ∧
    totalPagesOf l.length limit = max 1 ((l.length + limit - 1) / limit) ∧
    (l.length = 11 →
      (paginateData l 2 9).length = 2 ∧ totalPagesOf l.length 9 = 2) := by
  refine ⟨?_, stableSortBy_perm scoredLE l, rfl, rfl, ?_⟩
  · have h := stableSortBy_pairwise scoredLE_trans scoredLE_total l
    exact h.imp fun hab => by simpa [scoredLE] using hab
  · intro h11
    constructor
    · simp [paginateData, sortScored, List.length_take, List.length_drop,
        stableSortBy_length, h11]
    · rw [h11]
      decide

theorem c5_witness :
    (0 : Nat) < 9 ∧
    (List.replicate 11 ((0 : Nat), recCat)).length = 11 ∧
    (paginateData (List.replicate 11 ((0 : Nat), recCat)) 2 9).length = 2 ∧
    totalPagesOf (List.replicate 11 ((0 : Nat), recCat)).length 9 = 2 :=
  ⟨by decide, by simp,
   ((c5_paginator (List.replicate 11 ((0 : Nat), recCat)) 2 9
      (by decide)).2.2.2.2 (by simp)).1,
   ((c5_paginator (List.replicate 11 ((0 : Nat), recCat)) 2 9
      (by decide)).2.2.2.2 (by simp)).2⟩

/-- C8: for every path of the listing, a page number strictly beyond the
reported totalPages yields an empty data sequence (the clipped slice is
empty); the listing is a total function, so this is not an error condition. -/
theorem c8_out_of_range_page_empty (creds : Bool) (db : List SearchRecord)
    (page limit : Nat) (q : String) (hl : 0 < limit)
    (hp : (getAllImages creds db page limit q).totalPages < page) :
    (getAllImages creds db page limit q).data = [] := by
  cases creds with
  | false =>
    simp only [getAllImages, Bool.not_false, if_true] at hp ⊢
    exact page_slice_nil _ _ page limit
      (by simp [recencySort, stableSortBy_length]) hl hp
  | true =>
    by_cases hq : q = ""
    · simp only [getAllImages, Bool.not_true, if_false, hq, if_true] at hp ⊢
      exact page_slice_nil _ _ page limit
        (by simp [recencySort, stableSortBy_length]) hl hp
    · simp only [getAllImages, Bool.not_true, if_false, hq, if_neg] at hp ⊢
      have hz : paginateData ((db.filter (searchFilter (sanitizeQuery (some q))
          (transformationVariations (lowerStr (sanitizeQuery (some q))))
          (searchVariations (lowerStr (sanitizeQuery (some q)))))).map fun r =>
            (score r (lowerStr (sanitizeQuery (some q)))
              (transformationVariations (lowerStr (sanitizeQuery (some q)))), r))
          page limit = [] := by
        unfold paginateData
        exact page_slice_nil _ _ page limit
          (by simp [sortScored, stableSortBy_length, List.length_map]) hl hp
      rw [hz]
      rfl

theorem c8_witness :
    (0 : Nat) < 1 ∧
    (getAllImages true [recTitleX] 5 1 "").totalPages < 5 ∧
    (getAllImages true [recTitleX] 5 1 "").data = [] :=
  ⟨by decide, by decide,
   c8_out_of_range_page_empty true [recTitleX] 5 1 "" (by decide) (by decide)⟩

/-- C9: with the media-API credentials missing, every request (with or
without a search query) is served by the fallback: a case-insensitive regex
match of the raw query over title and transformationType only, recency
ordering with database-native skip/limit, totalPages derived from the count
matching that simpler filter, with no alias/misspelling expansion and no
relevance scoring (the result equals a listing defined without them, and
every returned record comes from the store and satisfies the simple regex
filter). -/
theorem c9_missing_credentials_fallback (db : List SearchRecord)
    (page limit : Nat) (q : String) :
    getAllImages false db page limit q = fallbackListing db page limit q ∧
    ∀ r ∈ (getAllImages false db page limit q).data,
      r ∈ db ∧ (optMatch (regexContains q) r.title ||
                optMatch (regexContains q) r.transformationType) = true := by
  constructor
  · rfl
  · intro r hr
    simp only [getAllImages, Bool.not_false, if_true] at hr
    have h1 := List.drop_subset _ _ (List.take_subset _ _ hr)
    have h2 := mem_stableSortBy.mp h1
    exact ⟨(List.mem_filter.mp h2).1, (List.mem_filter.mp h2).2⟩

theorem c9_witness :
    recCat ∈ [recCat] ∧
    (optMatch (regexContains "cat") recCat.title ||
     optMatch (regexContains "cat") recCat.transformationType) = true :=
  (c9_missing_credentials_fallback [recCat] 1 1 "cat").2 recCat (by decide)

end Artify
